import Mathlib

/-!
Verification of the AShare repository: a shallow embedding of the two core
source files and proofs of the specification claims about them.

`2-1-All_K_data-akshare.py` — the ingestion orchestrator: a batch loop that
skips symbols with an existing stored artifact, performs exactly one fetch
attempt otherwise, normalizes and persists successful results, and tallies
`{succeeded, failed, skipped}`.

`3-2-K_line-MA_line.py` — the viewer: loads a stored series, resamples it to
daily/weekly/monthly bars (pandas `resample("W-FRI")` / `resample("ME")`),
adds Fibonacci moving-average columns (`rolling(w).mean()`), renders a chart,
and resolves hover positions to data rows by ordinal index.

Dates are embedded as proleptic-Gregorian serial day numbers (day 0 =
0000-03-01); prices and volumes as rationals.  pandas `NaN` cells are
`Option.none`.  DataFrames are a list of OHLCV rows plus the list of
moving-average columns that have been assigned to the frame.
-/

namespace AShare

/-! ## Calendar arithmetic (embedding of pandas date handling) -/

/-- Gregorian leap-year rule. -/
def isLeap (y : Nat) : Bool :=
  (y % 4 == 0 && y % 100 != 0) || y % 400 == 0

/-- Number of days in month `m` of year `y`. -/
def monthLength (y m : Nat) : Nat :=
  if m = 2 then (if isLeap y then 29 else 28)
  else if m = 4 ∨ m = 6 ∨ m = 9 ∨ m = 11 then 30 else 31

/-- Serial day number of the civil date `y-m-d` (proleptic Gregorian,
day 0 = 0000-03-01); valid for `y ≥ 1`. -/
def toSerial (y m d : Nat) : Nat :=
  let y' := if m ≤ 2 then y - 1 else y
  let era := y' / 400
  let yoe := y' % 400
  let mp := if 3 ≤ m then m - 3 else m + 9
  let doy := (153 * mp + 2) / 5 + d - 1
  let doe := yoe * 365 + yoe / 4 - yoe / 100 + doy
  era * 146097 + doe

/-- Civil date `(y, m, d)` of a serial day number. -/
def fromSerial (s : Nat) : Nat × Nat × Nat :=
  let era := s / 146097
  let doe := s % 146097
  let yoe := (doe - doe / 1460 + doe / 36524 - doe / 146096) / 365
  let y := yoe + era * 400
  let doy := doe - (365 * yoe + yoe / 4 - yoe / 100)
  let mp := (5 * doy + 2) / 153
  let d := doy + 1 - (153 * mp + 2) / 5
  let m := if mp < 10 then mp + 3 else mp - 9
  (if m ≤ 2 then y + 1 else y, m, d)

/-- Serial number of the first Friday on or after `s` (day 0 = 0000-03-01 is
a Wednesday, so a serial is a Friday exactly when `s % 7 = 2`).  This is the
`W-FRI` bin label pandas assigns to a timestamp: bins run Saturday..Friday
and are labelled by their right (Friday) edge. -/
def nextFriday (s : Nat) : Nat := s + (9 - s % 7) % 7

/-- Index of the calendar month containing serial `s`, counted from January
of year 0; the `ME` (month-end) grouping key used by pandas. -/
def monthIdx (s : Nat) : Nat :=
  let c := fromSerial s
  c.1 * 12 + (c.2.1 - 1)

/-- Serial number of the last calendar day of month index `idx`; the `ME`
bin label pandas assigns to that month. -/
def monthIdxEnd (idx : Nat) : Nat :=
  toSerial (idx / 12) (idx % 12 + 1) (monthLength (idx / 12) (idx % 12 + 1))

/-! ## Data model -/

/-- One OHLCV row of a stored or derived series: canonical columns
`date, open, high, low, close, volume` (source schema after normalization). -/
structure Bar where
  date : Nat
  «open» : ℚ
  high : ℚ
  low : ℚ
  close : ℚ
  volume : ℚ
deriving DecidableEq, Repr, Inhabited

/-- A pandas DataFrame as the viewer sees it: the OHLCV rows plus whatever
moving-average columns have been assigned to the frame (window ↦ column;
a column cell is `none` where pandas holds `NaN`). -/
structure DataFrame where
  bars : List Bar
  cols : List (Nat × List (Option ℚ))
deriving DecidableEq, Repr, Inhabited

/-! ## Indicator engine (`MA_WINDOWS`, `add_ma`) -/

/-- `MA_WINDOWS = [3, 5, 8, 13, 21, 34, 55]` from the source. -/
def MA_WINDOWS : List Nat := [3, 5, 8, 13, 21, 34, 55]

/-- pandas `Series.rolling(w).mean()` (default `min_periods = w`): position
`i` holds the mean of the last `w` values up to and including `i`, or `NaN`
(`none`) when fewer than `w` values exist. -/
def rolling_mean (w : Nat) (xs : List ℚ) : List (Option ℚ) :=
  (List.range xs.length).map (fun i =>
    if w ≤ i + 1 then some ((((xs.take (i + 1)).drop (i + 1 - w)).sum) / w) else none)

/-- pandas column assignment `df[c] = v`: replace the column if the key is
present, else append it. -/
def setCol (cols : List (Nat × List (Option ℚ))) (w : Nat) (v : List (Option ℚ)) :
    List (Nat × List (Option ℚ)) :=
  match cols with
  | [] => [(w, v)]
  | c :: cs => if c.1 = w then (w, v) :: cs else c :: setCol cs w v

/-- `add_ma`: for each window `w` assign column `MA{w} = df["close"].rolling(w).mean()`
to the frame (in-place column assignment on the argument object; the
function returns that same, extended object). -/
def add_ma (df : DataFrame) : DataFrame :=
  { df with
    cols := MA_WINDOWS.foldl
      (fun acc w => setCol acc w (rolling_mean w (df.bars.map (·.close)))) df.cols }

/-- Call-semantics wrapper for `add_ma`: Python passes the DataFrame by
reference and `add_ma` mutates it, so the pair is
`(return value, post-state of the caller's argument)` — both are the same
extended frame. -/
def add_ma_call (df : DataFrame) : DataFrame × DataFrame :=
  (add_ma df, add_ma df)

/-- Column lookup `df["MA{w}"]`, `none` when the column is absent. -/
def getCol (df : DataFrame) (w : Nat) : Option (List (Option ℚ)) :=
  (df.cols.find? (fun p => p.1 == w)).map (·.2)

/-- The `MA{w}` cell of row `i` as the hover readout sees it
(`row.get(f"MA{w}")`): `none` when the column is absent or the cell is `NaN`. -/
def DataFrame.rowMA (df : DataFrame) (i : Nat) (w : Nat) : Option ℚ :=
  match getCol df w with
  | none => none
  | some col => col.getD i none

/-! ## Aggregation engine (`resample_k_data`) -/

/-- The reduction pandas applies to one non-empty resample group with the
source's agg dict: `open`=first, `high`=max, `low`=min, `close`=last,
`volume`=sum; an empty group makes an all-`NaN` row which `dropna()`
removes, hence `none`. -/
def aggGroup (label : Nat) : List Bar → Option Bar
  | [] => none
  | b :: bs =>
    some { date := label
           «open» := b.«open»
           high := (bs.map (·.high)).foldl max b.high
           low := (bs.map (·.low)).foldl min b.low
           close := (bs.getLastD b).close
           volume := ((b :: bs).map (·.volume)).sum }

/-- The arithmetic progression of bin keys `lo, lo+step, …` covering `hi`. -/
def binsFrom (lo hi step : Nat) : List Nat :=
  (List.range ((hi - lo) / step + 1)).map (fun i => lo + step * i)

/-- The bins pandas generates for a series under grouping key `f`: one bin
per key value from the smallest to the largest key present, in steps of
`step`. -/
def keyBins (f : Bar → Nat) (step : Nat) (bars : List Bar) : List Nat :=
  match bars.map f with
  | [] => []
  | k :: ks => binsFrom (ks.foldl min k) (ks.foldl max k) step

/-- The `W-FRI` bins pandas generates for a series: one bin per Friday from
the earliest to the latest week present. -/
def weeklyBins (bars : List Bar) : List Nat :=
  keyBins (fun b => nextFriday b.date) 7 bars

/-- The `ME` bins pandas generates: one bin per calendar month from the
earliest to the latest month present. -/
def monthlyBins (bars : List Bar) : List Nat :=
  keyBins (fun b => monthIdx b.date) 1 bars

/-- Resample a row list over the given bins: each bin aggregates the rows
whose key falls in it, labelled by `label`; empty bins are dropped
(`dropna()`). -/
def resampleBars (key : Nat → Nat) (label : Nat → Nat) (bins : List Nat)
    (bars : List Bar) : List Bar :=
  bins.filterMap (fun k => aggGroup (label k) (bars.filter (fun b => key b.date == k)))

/-- `resample_k_data`: `daily` returns `df.copy()`; `weekly` resamples with
`W-FRI`; `monthly` with `ME` (both return fresh frames holding only the
aggregated canonical columns); any other period falls through and returns
the frame unchanged. -/
def resample_k_data (df : DataFrame) (period : String) : DataFrame :=
  if period = "daily" then df
  else if period = "weekly" then
    ⟨resampleBars nextFriday id (weeklyBins df.bars) df.bars, []⟩
  else if period = "monthly" then
    ⟨resampleBars monthIdx monthIdxEnd (monthlyBins df.bars) df.bars, []⟩
  else df

/-- Call-semantics wrapper for `resample_k_data`: it builds its result from
copies (`df.copy()`, `df.set_index("date").copy()`), so the caller's
argument object is returned unchanged as the post-state. -/
def resample_k_data_call (df : DataFrame) (period : String) : DataFrame × DataFrame :=
  (resample_k_data df period, df)

/-! ## Helper lemmas about folds, bins and ordered `filterMap` -/

section Folds

variable {α : Type} [LinearOrder α]

theorem le_foldl_max (l : List α) (a : α) : a ≤ l.foldl max a := by
  induction l generalizing a with
  | nil => exact le_refl a
  | cons x t ih => exact le_trans (le_max_left a x) (ih (max a x))

theorem le_foldl_max_of_mem {l : List α} {x : α} (hx : x ∈ l) (a : α) :
    x ≤ l.foldl max a := by
  induction l generalizing a with
  | nil => cases hx
  | cons y t ih =>
    rcases List.mem_cons.1 hx with rfl | hx
    · exact le_trans (le_max_right a x) (le_foldl_max t (max a x))
    · exact ih hx (max a y)

theorem foldl_max_mem (l : List α) (a : α) : l.foldl max a = a ∨ l.foldl max a ∈ l := by
  induction l generalizing a with
  | nil => exact Or.inl rfl
  | cons x t ih =>
    rcases ih (max a x) with h | h
    · rcases max_choice a x with hc | hc
      · left; rw [List.foldl_cons, h, hc]
      · right; rw [List.foldl_cons, h, hc]; exact List.mem_cons_self x t
    · exact Or.inr (List.mem_cons_of_mem x h)

theorem foldl_min_le (l : List α) (a : α) : l.foldl min a ≤ a := by
  induction l generalizing a with
  | nil => exact le_refl a
  | cons x t ih => exact le_trans (ih (min a x)) (min_le_left a x)

theorem foldl_min_le_of_mem {l : List α} {x : α} (hx : x ∈ l) (a : α) :
    l.foldl min a ≤ x := by
  induction l generalizing a with
  | nil => cases hx
  | cons y t ih =>
    rcases List.mem_cons.1 hx with rfl | hx
    · exact le_trans (foldl_min_le t (min a x)) (min_le_right a x)
    · exact ih hx (min a y)

theorem foldl_min_mem (l : List α) (a : α) : l.foldl min a = a ∨ l.foldl min a ∈ l := by
  induction l generalizing a with
  | nil => exact Or.inl rfl
  | cons x t ih =>
    rcases ih (min a x) with h | h
    · rcases min_choice a x with hc | hc
      · left; rw [List.foldl_cons, h, hc]
      · right; rw [List.foldl_cons, h, hc]; exact List.mem_cons_self x t
    · exact Or.inr (List.mem_cons_of_mem x h)

end Folds

/-- A key between the bounds and congruent to `lo` modulo the step lies in
the generated bin list. -/
theorem mem_binsFrom {lo hi step k : Nat} (hstep : 0 < step)
    (hlo : lo ≤ k) (hhi : k ≤ hi) (hdvd : step ∣ (k - lo)) :
    k ∈ binsFrom lo hi step := by
  rcases hdvd with ⟨c, hc⟩
  have hcle : step * c ≤ hi - lo := by omega
  have hcd : c ≤ (hi - lo) / step :=
    (Nat.le_div_iff_mul_le hstep).2 (by rw [Nat.mul_comm]; exact hcle)
  exact List.mem_map.2 ⟨c, List.mem_range.2 (by omega), by omega⟩

/-- The generated bins are strictly increasing. -/
theorem pairwise_binsFrom (lo hi step : Nat) (hstep : 0 < step) :
    (binsFrom lo hi step).Pairwise (· < ·) := by
  refine List.Pairwise.map _ (fun i j hij => ?_) (List.pairwise_lt_range _)
  have : step * i < step * j := by
    exact Nat.mul_lt_mul_left hstep |>.mpr hij
  omega

/-- `filterMap` over a strictly increasing bin list yields rows whose dates
(strictly) increase, provided each produced row is dated at its bin. -/
theorem pairwise_filterMap_date {bins : List Nat} {f : Nat → Option Bar}
    (hf : ∀ k a, f k = some a → a.date = k)
    (hb : bins.Pairwise (· < ·)) :
    (bins.filterMap f).Pairwise (fun a b => a.date < b.date) := by
  induction bins with
  | nil => simp
  | cons k t ih =>
    rcases List.pairwise_cons.1 hb with ⟨hk, ht⟩
    cases hfk : f k with
    | none => simpa [List.filterMap_cons, hfk] using ih ht
    | some a =>
      rw [List.filterMap_cons, hfk]
      refine List.pairwise_cons.2 ⟨?_, ih ht⟩
      intro b hbmem
      rcases List.mem_filterMap.1 hbmem with ⟨k', hk', hfk'⟩
      rw [hf k a hfk, hf k' b hfk']
      exact hk k' hk'

/-- What membership in a resampled list means: the row is the aggregate of
the (non-empty) group of bars in some bin. -/
theorem mem_resampleBars {key label : Nat → Nat} {bins : List Nat} {bars : List Bar}
    {a : Bar} (ha : a ∈ resampleBars key label bins bars) :
    ∃ k ∈ bins, ∃ h t, bars.filter (fun b => key b.date == k) = h :: t ∧
      a = { date := label k
            «open» := h.«open»
            high := (t.map (·.high)).foldl max h.high
            low := (t.map (·.low)).foldl min h.low
            close := (t.getLastD h).close
            volume := ((h :: t).map (·.volume)).sum } := by
  rcases List.mem_filterMap.1 ha with ⟨k, hk, hagg⟩
  refine ⟨k, hk, ?_⟩
  cases hg : bars.filter (fun b => key b.date == k) with
  | nil => rw [hg] at hagg; cases hagg
  | cons h t =>
    rw [hg] at hagg
    refine ⟨h, t, rfl, ?_⟩
    cases hagg
    rfl

/-- Conversely, every bin that appears in the list and has a non-empty
group contributes its aggregate row. -/
theorem agg_mem_resampleBars {key label : Nat → Nat} {bins : List Nat} {bars : List Bar}
    {k : Nat} (hk : k ∈ bins) {a : Bar}
    (ha : aggGroup (label k) (bars.filter (fun b => key b.date == k)) = some a) :
    a ∈ resampleBars key label bins bars :=
  List.mem_filterMap.2 ⟨k, hk, ha⟩

/-- Every serial produced by `nextFriday` is a Friday (`% 7 = 2`). -/
theorem nextFriday_mod (s : Nat) : nextFriday s % 7 = 2 := by
  unfold nextFriday; omega

/-- Every bar's key bin appears in the generated bin list, provided all
keys are congruent modulo the step. -/
theorem mem_keyBins {f : Bar → Nat} {step : Nat} {bars : List Bar} {b : Bar}
    (hb : b ∈ bars) (hstep : 0 < step)
    (hcong : ∀ x y : Bar, f x % step = f y % step) :
    f b ∈ keyBins f step bars := by
  unfold keyBins
  cases hbar : bars.map f with
  | nil => exact absurd (List.map_eq_nil_iff.1 hbar ▸ hb) (List.not_mem_nil b)
  | cons k ks =>
    have hkey : f b ∈ k :: ks := hbar ▸ List.mem_map_of_mem f hb
    have hlo : ks.foldl min k ≤ f b := by
      rcases List.mem_cons.1 hkey with he | hm
      · exact he ▸ foldl_min_le ks k
      · exact foldl_min_le_of_mem hm k
    have hhi : f b ≤ ks.foldl max k := by
      rcases List.mem_cons.1 hkey with he | hm
      · exact he ▸ le_foldl_max ks k
      · exact le_foldl_max_of_mem hm k
    have hlomem : ks.foldl min k ∈ k :: ks := by
      rcases foldl_min_mem ks k with he | hm
      · rw [he]; exact List.mem_cons_self k ks
      · exact List.mem_cons_of_mem k hm
    have hlomod : ks.foldl min k % step = f b % step := by
      rcases List.mem_map.1 (hbar ▸ hlomem) with ⟨b', _, he⟩
      exact he ▸ hcong b' b
    refine mem_binsFrom hstep hlo hhi (Nat.dvd_of_mod_eq_zero ?_)
    exact Nat.sub_mod_eq_zero_of_mod_eq (hlomod ▸ rfl)

/-- Every bar's week bin appears in the generated weekly bin list. -/
theorem mem_weeklyBins {bars : List Bar} {b : Bar} (hb : b ∈ bars) :
    nextFriday b.date ∈ weeklyBins bars :=
  mem_keyBins hb (by norm_num)
    (fun x y => by rw [nextFriday_mod, nextFriday_mod])

/-- Every bar's month bin appears in the generated monthly bin list. -/
theorem mem_monthlyBins {bars : List Bar} {b : Bar} (hb : b ∈ bars) :
    monthIdx b.date ∈ monthlyBins bars :=
  mem_keyBins hb (by norm_num) (fun x y => by omega)

/-- Unfolding `resample_k_data` at the three period strings. -/
theorem resample_daily_eq (df : DataFrame) : resample_k_data df "daily" = df := rfl

theorem resample_weekly_eq (df : DataFrame) :
    resample_k_data df "weekly" =
      ⟨resampleBars nextFriday id (weeklyBins df.bars) df.bars, []⟩ := rfl

theorem resample_monthly_eq (df : DataFrame) :
    resample_k_data df "monthly" =
      ⟨resampleBars monthIdx monthIdxEnd (monthlyBins df.bars) df.bars, []⟩ := rfl

/-- The foldl-max over a group is one of the group's values… -/
theorem foldl_max_cons_mem (a : ℚ) (l : List ℚ) : l.foldl max a ∈ a :: l := by
  rcases foldl_max_mem l a with he | hm
  · rw [he]; exact List.mem_cons_self a l
  · exact List.mem_cons_of_mem a hm

/-- …and an upper bound of them; dually for foldl-min. -/
theorem foldl_max_ub {x a : ℚ} {l : List ℚ} (hx : x ∈ a :: l) : x ≤ l.foldl max a := by
  rcases List.mem_cons.1 hx with he | hm
  · exact he ▸ le_foldl_max l a
  · exact le_foldl_max_of_mem hm a

theorem foldl_min_cons_mem (a : ℚ) (l : List ℚ) : l.foldl min a ∈ a :: l := by
  rcases foldl_min_mem l a with he | hm
  · rw [he]; exact List.mem_cons_self a l
  · exact List.mem_cons_of_mem a hm

theorem foldl_min_lb {x a : ℚ} {l : List ℚ} (hx : x ∈ a :: l) : l.foldl min a ≤ x := by
  rcases List.mem_cons.1 hx with he | hm
  · exact he ▸ foldl_min_le l a
  · exact foldl_min_le_of_mem hm a

/-! ## Concrete example series -/

/-- Bar number `j` of the examples: distinct prices per field so each
aggregate field is traceable. -/
def exBar (j : Nat) (d : Nat) : Bar :=
  ⟨d, j, 20 + j, 50 - (j : ℚ), 100 + j, 1000 + j⟩

/-- Ten trading days, 2024-01-08..12 and 2024-01-15..19: two full Sat–Fri
weeks ending Friday 2024-01-12 and Friday 2024-01-19. -/
def ex10 : List Bar :=
  [exBar 1 (toSerial 2024 1 8), exBar 2 (toSerial 2024 1 9),
   exBar 3 (toSerial 2024 1 10), exBar 4 (toSerial 2024 1 11),
   exBar 5 (toSerial 2024 1 12), exBar 6 (toSerial 2024 1 15),
   exBar 7 (toSerial 2024 1 16), exBar 8 (toSerial 2024 1 17),
   exBar 9 (toSerial 2024 1 18), exBar 10 (toSerial 2024 1 19)]

/-! ## C1 — weekly aggregation -/

set_option maxRecDepth 3000 in
/-- C1: for every non-empty daily series, weekly resampling emits one
aggregate per non-empty Sat–Fri week group — `open` the group's first bar's
open, `high` the maximum high, `low` the minimum low, `close` the last
bar's close, `volume` the sum — with rows ascending by period-end (Friday)
date; every bar's week is represented; the 10-trading-day example spanning
two weeks yields exactly 2 weekly rows whose first row closes at week 1's
last daily close with week 1's summed volume; and `daily` resampling is the
identity. -/
theorem c1_weekly_aggregation :
    (∀ df : DataFrame, df.bars ≠ [] →
      df.bars.Pairwise (fun x y => x.date < y.date) →
      ((∀ a ∈ (resample_k_data df "weekly").bars,
          ∃ h t, df.bars.filter (fun b => nextFriday b.date == a.date) = h :: t ∧
            a.«open» = h.«open» ∧
            a.close = (t.getLastD h).close ∧
            a.high ∈ (h :: t).map (·.high) ∧
            (∀ x ∈ (h :: t).map (·.high), x ≤ a.high) ∧
            a.low ∈ (h :: t).map (·.low) ∧
            (∀ x ∈ (h :: t).map (·.low), a.low ≤ x) ∧
            a.volume = ((h :: t).map (·.volume)).sum) ∧
        (∀ b ∈ df.bars, ∃ a ∈ (resample_k_data df "weekly").bars,
            a.date = nextFriday b.date) ∧
        (resample_k_data df "weekly").bars.Pairwise (fun x y => x.date < y.date) ∧
        resample_k_data df "daily" = df)) ∧
    ((resample_k_data ⟨ex10, []⟩ "weekly").bars.length = 2 ∧
     ((resample_k_data ⟨ex10, []⟩ "weekly").bars.headD default).date = toSerial 2024 1 12 ∧
     ((resample_k_data ⟨ex10, []⟩ "weekly").bars.headD default).close = 105 ∧
     ((resample_k_data ⟨ex10, []⟩ "weekly").bars.headD default).volume = 5015 ∧
     ((resample_k_data ⟨ex10, []⟩ "weekly").bars.getLastD default).date = toSerial 2024 1 19) := by
  constructor
  · intro df _hne _hsorted
    refine ⟨?_, ?_, ?_, rfl⟩
    · intro a ha
      rw [resample_weekly_eq] at ha
      obtain ⟨k, _hk, h, t, hg, hadef⟩ := mem_resampleBars ha
      subst hadef
      refine ⟨h, t, hg, rfl, rfl, ?_, ?_, ?_, ?_, rfl⟩
      · exact foldl_max_cons_mem h.high (t.map (·.high))
      · intro x hx
        exact foldl_max_ub hx
      · exact foldl_min_cons_mem h.low (t.map (·.low))
      · intro x hx
        exact foldl_min_lb hx
    · intro b hb
      have hkb : nextFriday b.date ∈ weeklyBins df.bars := mem_weeklyBins hb
      have hbf : b ∈ df.bars.filter (fun x => nextFriday x.date == nextFriday b.date) :=
        List.mem_filter.2 ⟨hb, by simp⟩
      cases hgf : df.bars.filter (fun x => nextFriday x.date == nextFriday b.date) with
      | nil => rw [hgf] at hbf; cases hbf
      | cons h t =>
        refine ⟨⟨nextFriday b.date, h.«open», (t.map (·.high)).foldl max h.high,
                 (t.map (·.low)).foldl min h.low, (t.getLastD h).close,
                 ((h :: t).map (·.volume)).sum⟩, ?_, rfl⟩
        rw [resample_weekly_eq]
        exact agg_mem_resampleBars hkb (by rw [hgf]; rfl)
    · rw [resample_weekly_eq]
      refine pairwise_filterMap_date ?_ ?_
      · intro k a hfa
        cases hg : df.bars.filter (fun b => nextFriday b.date == k) with
        | nil => rw [hg] at hfa; cases hfa
        | cons h t => rw [hg] at hfa; cases hfa; rfl
      · unfold weeklyBins keyBins
        cases df.bars.map (fun b => nextFriday b.date) with
        | nil => simp
        | cons k ks => exact pairwise_binsFrom _ _ 7 (by norm_num)
  · exact ⟨by with_unfolding_all rfl, by with_unfolding_all rfl,
      by with_unfolding_all rfl, by with_unfolding_all rfl,
      by with_unfolding_all rfl⟩

/-! ## C2 — moving averages -/

/-- A list's sum as an indexed sum over its positions. -/
theorem sum_eq_sum_range_getD (l : List ℚ) :
    l.sum = ∑ t ∈ Finset.range l.length, l.getD t 0 := by
  induction l with
  | nil => simp
  | cons a t ih =>
    rw [List.sum_cons, ih, List.length_cons, Finset.sum_range_succ']
    simp only [List.getD_cons_succ, List.getD_cons_zero]
    exact add_comm a _

/-- Indexing into the length-`w` window `xs[i+1-w .. i]` reads back into
`xs`. -/
theorem window_getD (xs : List ℚ) (i w t : Nat) (hw : w ≤ i + 1) (ht : t < w) :
    ((xs.take (i + 1)).drop (i + 1 - w)).getD t 0 = xs.getD (i + 1 - w + t) 0 := by
  rw [List.getD_eq_getElem?_getD, List.getD_eq_getElem?_getD, List.getElem?_drop,
    List.getElem?_take]
  have hlt : i + 1 - w + t < i + 1 := by omega
  rw [if_pos hlt]

/-- The rolling-mean cell at an in-range position: defined exactly when `w`
bars exist up to the position, and then equal to the mean of the trailing
window. -/
theorem rolling_mean_getD (w : Nat) (xs : List ℚ) (i : Nat) (hi : i < xs.length) :
    (rolling_mean w xs).getD i none =
      if w ≤ i + 1 then
        some ((∑ k ∈ Finset.Icc (i + 1 - w) i, xs.getD k 0) / w)
      else none := by
  unfold rolling_mean
  rw [List.getD_eq_getElem?_getD, List.getElem?_map, List.getElem?_range hi]
  simp only [Option.map_some', Option.getD_some]
  by_cases hw : w ≤ i + 1
  · rw [if_pos hw, if_pos hw]
    have hwin : ((xs.take (i + 1)).drop (i + 1 - w)).sum =
        ∑ k ∈ Finset.Icc (i + 1 - w) i, xs.getD k 0 := by
      rw [sum_eq_sum_range_getD]
      have hlen : ((xs.take (i + 1)).drop (i + 1 - w)).length = w := by
        rw [List.length_drop, List.length_take]
        omega
      rw [hlen, ← Nat.Ico_succ_right, Finset.sum_Ico_eq_sum_range]
      have hspan : i + 1 - (i + 1 - w) = w := by omega
      rw [hspan]
      refine Finset.sum_congr rfl (fun t htr => ?_)
      exact window_getD xs i w t hw (Finset.mem_range.1 htr)
    rw [hwin]
  · rw [if_neg hw, if_neg hw]

/-- `setCol` on a frame not containing the key appends the column. -/
theorem setCol_of_fresh (acc : List (Nat × List (Option ℚ))) (w : Nat)
    (v : List (Option ℚ)) (h : ∀ p ∈ acc, p.1 ≠ w) :
    setCol acc w v = acc ++ [(w, v)] := by
  induction acc with
  | nil => rfl
  | cons c cs ih =>
    unfold setCol
    rw [if_neg (h c (List.mem_cons_self c cs))]
    rw [ih (fun p hp => h p (List.mem_cons_of_mem c hp))]
    rfl

/-- Folding fresh column assignments over distinct keys appends them all in
order. -/
theorem foldl_setCol_fresh (F : Nat → List (Option ℚ)) :
    ∀ (l : List Nat) (acc : List (Nat × List (Option ℚ))), l.Nodup →
      (∀ u ∈ l, ∀ p ∈ acc, p.1 ≠ u) →
      l.foldl (fun acc w => setCol acc w (F w)) acc =
        acc ++ l.map (fun w => (w, F w)) := by
  intro l
  induction l with
  | nil => intro acc _ _; simp
  | cons w ws ih =>
    intro acc hnd hfresh
    rw [List.foldl_cons,
      setCol_of_fresh acc w (F w) (hfresh w (List.mem_cons_self w ws))]
    rw [ih (acc ++ [(w, F w)]) (List.nodup_cons.1 hnd).2 ?_]
    · simp
    · intro u hu p hp
      rcases List.mem_append.1 hp with hpa | hpw
      · exact hfresh u (List.mem_cons_of_mem w hu) p hpa
      · have hpw' : p = (w, F w) := List.mem_singleton.1 hpw
        rw [hpw']
        intro he
        have hwu : w = u := he
        exact (List.nodup_cons.1 hnd).1 (by rw [hwu]; exact hu)

/-- The columns `add_ma` installs on a frame with no prior MA columns. -/
theorem add_ma_cols (bars : List Bar) :
    (add_ma ⟨bars, []⟩).cols =
      MA_WINDOWS.map (fun w => (w, rolling_mean w (bars.map (·.close)))) := by
  have h := foldl_setCol_fresh (fun w => rolling_mean w (bars.map (·.close)))
    MA_WINDOWS [] (by decide) (fun u _ p hp => absurd hp (List.not_mem_nil p))
  simpa [add_ma] using h

/-- `find?` over a keyed map finds the requested key's entry. -/
theorem find_map_key (F : Nat → List (Option ℚ)) (l : List Nat) (w : Nat)
    (hw : w ∈ l) :
    (l.map (fun u => (u, F u))).find? (fun p => p.1 == w) = some (w, F w) := by
  induction l with
  | nil => cases hw
  | cons u t ih =>
    by_cases hu : u = w
    · subst hu
      exact List.find?_cons_of_pos _ (by simp)
    · rw [List.map_cons, List.find?_cons_of_neg _ (by simp [hu])]
      exact ih ((List.mem_cons.1 hw).resolve_left (fun he => hu he.symm))

/-- The `MA{w}` readout cell of a freshly computed frame is the rolling
mean cell. -/
theorem rowMA_add_ma (bars : List Bar) (w : Nat) (hw : w ∈ MA_WINDOWS) (i : Nat) :
    (add_ma ⟨bars, []⟩).rowMA i w =
      (rolling_mean w (bars.map (·.close))).getD i none := by
  unfold DataFrame.rowMA getCol
  rw [add_ma_cols, find_map_key _ MA_WINDOWS w hw]
  rfl

/-- Positions read back through the close column. -/
theorem getD_map_close (bars : List Bar) (k : Nat) (hk : k < bars.length) :
    (bars.map (·.close)).getD k 0 = (bars.getD k default).close := by
  rw [List.getD_eq_getElem?_getD, List.getD_eq_getElem?_getD, List.getElem?_map,
    List.getElem?_eq_getElem hk]
  rfl

set_option maxRecDepth 3000 in
/-- C2: for every series, every window `w ∈ {3,5,8,13,21,34,55}` and every
position `i`, the moving-average cell equals the arithmetic mean of `close`
over bars `[i-w+1, i]` when at least `w` bars exist up to `i`, and is the
explicit missing marker otherwise — never zero, never an error; the series
itself is untouched; a 4-bar series has all 4 `MA5` cells missing, and with
exactly 5 bars the 5th `MA5` cell is the mean of the 5 closes. -/
theorem c2_moving_average :
    (∀ bars : List Bar, ∀ w ∈ MA_WINDOWS, ∀ i, i < bars.length →
      (add_ma ⟨bars, []⟩).rowMA i w =
        (if w ≤ i + 1 then
          some ((∑ k ∈ Finset.Icc (i + 1 - w) i, (bars.getD k default).close) / w)
        else none)) ∧
    (∀ bars : List Bar, (add_ma ⟨bars, []⟩).bars = bars) ∧
    (∀ i, i < 4 → (add_ma ⟨ex10.take 4, []⟩).rowMA i 5 = none) ∧
    (add_ma ⟨ex10.take 5, []⟩).rowMA 4 5 =
      some ((101 + 102 + 103 + 104 + 105) / 5) := by
  refine ⟨?_, fun bars => rfl, ?_, ?_⟩
  · intro bars w hw i hi
    rw [rowMA_add_ma bars w hw i,
      rolling_mean_getD w (bars.map (·.close)) i (by simpa using hi)]
    by_cases hcase : w ≤ i + 1
    · rw [if_pos hcase, if_pos hcase]
      have : (∑ k ∈ Finset.Icc (i + 1 - w) i, (bars.map (·.close)).getD k 0) =
          ∑ k ∈ Finset.Icc (i + 1 - w) i, (bars.getD k default).close := by
        refine Finset.sum_congr rfl (fun k hk => ?_)
        have hk' : k ≤ i := (Finset.mem_Icc.1 hk).2
        exact getD_map_close bars k (lt_of_le_of_lt hk' hi)
      rw [this]
    · rw [if_neg hcase, if_neg hcase]
  · intro i hi
    interval_cases i <;> with_unfolding_all rfl
  · with_unfolding_all rfl

set_option maxRecDepth 3000 in
/-- C2 witness: the general statement applied at the 5th position of the
5-bar series with window 5. -/
theorem c2_moving_average_witness :
    (add_ma ⟨ex10.take 5, []⟩).rowMA 4 5 =
      (if 5 ≤ 4 + 1 then
        some ((∑ k ∈ Finset.Icc (4 + 1 - 5) 4, ((ex10.take 5).getD k default).close) / 5)
      else none) :=
  c2_moving_average.1 (ex10.take 5) 5 (by decide) 4 (by with_unfolding_all decide)

/-! ## C6 — trailing partial period -/

/-- A single trading day on 2024-01-31, the last calendar day of its month. -/
def c6bar : Bar := ⟨toSerial 2024 1 31, 10, 12, 9, 11, 500⟩

set_option maxRecDepth 3000 in
/-- C6: for every non-empty daily series, monthly resampling emits the
final (possibly incomplete) month as its own aggregate row — dated at that
month's calendar end and built from exactly the bars of that month,
whatever their number; a series holding a single trading day falling on the
last calendar day of a month yields exactly one monthly row dated at
month-end whose OHLCV equal that day's values. -/
theorem c6_monthly_trailing :
    (∀ df : DataFrame, ∀ b0 bs, df.bars = b0 :: bs →
      df.bars.Pairwise (fun x y => x.date < y.date) →
      ∃ a ∈ (resample_k_data df "monthly").bars,
        a.date = monthIdxEnd (monthIdx (bs.getLastD b0).date) ∧
        ∃ h t,
          df.bars.filter
              (fun x => monthIdx x.date == monthIdx (bs.getLastD b0).date) = h :: t ∧
          a.«open» = h.«open» ∧
          a.close = (t.getLastD h).close ∧
          a.high ∈ (h :: t).map (·.high) ∧
          (∀ x ∈ (h :: t).map (·.high), x ≤ a.high) ∧
          a.low ∈ (h :: t).map (·.low) ∧
          (∀ x ∈ (h :: t).map (·.low), a.low ≤ x) ∧
          a.volume = ((h :: t).map (·.volume)).sum) ∧
    (resample_k_data ⟨[c6bar], []⟩ "monthly").bars = [c6bar] := by
  constructor
  · intro df b0 bs hbars _hsorted
    have hlbmem : bs.getLastD b0 ∈ df.bars := by
      rw [hbars]
      exact List.getLastD_mem_cons bs b0
    have hkb : monthIdx (bs.getLastD b0).date ∈ monthlyBins df.bars :=
      mem_monthlyBins hlbmem
    have hbf : bs.getLastD b0 ∈ df.bars.filter
        (fun x => monthIdx x.date == monthIdx (bs.getLastD b0).date) :=
      List.mem_filter.2 ⟨hlbmem, by simp⟩
    cases hgf : df.bars.filter
        (fun x => monthIdx x.date == monthIdx (bs.getLastD b0).date) with
    | nil => rw [hgf] at hbf; cases hbf
    | cons h t =>
      have hmem : ({ date := monthIdxEnd (monthIdx (bs.getLastD b0).date)
                     «open» := h.«open»
                     high := (t.map (·.high)).foldl max h.high
                     low := (t.map (·.low)).foldl min h.low
                     close := (t.getLastD h).close
                     volume := ((h :: t).map (·.volume)).sum } : Bar)
          ∈ (resample_k_data df "monthly").bars := by
        rw [resample_monthly_eq]
        exact agg_mem_resampleBars hkb (by rw [hgf]; rfl)
      exact ⟨_, hmem, rfl, h, t, rfl, rfl, rfl,
             foldl_max_cons_mem h.high (t.map (·.high)),
             fun x hx => foldl_max_ub hx,
             foldl_min_cons_mem h.low (t.map (·.low)),
             fun x hx => foldl_min_lb hx, rfl⟩
  · with_unfolding_all rfl

set_option maxRecDepth 3000 in
/-- C6 witness: the general statement applied to the single-bar month-end
series. -/
theorem c6_monthly_trailing_witness :
    ∃ a ∈ (resample_k_data ⟨[c6bar], []⟩ "monthly").bars,
      a.date = monthIdxEnd (monthIdx c6bar.date) := by
  obtain ⟨a, hm, hd, -⟩ :=
    c6_monthly_trailing.1 ⟨[c6bar], []⟩ c6bar [] rfl (by decide)
  exact ⟨a, hm, hd⟩

set_option maxRecDepth 3000 in
/-- C1 witness: the general statement applied to the concrete ten-day
series; the first bar's week (Friday 2024-01-12) is among the output rows. -/
theorem c1_weekly_aggregation_witness :
    ∃ a ∈ (resample_k_data ⟨ex10, []⟩ "weekly").bars,
      a.date = nextFriday (toSerial 2024 1 8) :=
  (c1_weekly_aggregation.1 ⟨ex10, []⟩ (by with_unfolding_all decide)
      (by with_unfolding_all decide)).2.1
    (exBar 1 (toSerial 2024 1 8)) (List.mem_cons_self _ _)

/-! ## C9 — frame conditions of the viewer computations -/

/-- C9 counterexample: the claim says the caller's input series is left
unchanged (no fields added in place) by moving-average computation, but
`add_ma` assigns the MA columns onto the caller's DataFrame object: after
the call the argument's post-state carries seven new columns. -/
theorem c9_purity_cex :
    (add_ma_call ⟨[⟨0, 1, 2, 1, 3, 4⟩], []⟩).2 ≠
      (⟨[⟨0, 1, 2, 1, 3, 4⟩], []⟩ : DataFrame) := by
  with_unfolding_all decide

/-- C9 (amended): resampling leaves the caller's input object unchanged,
and the computations are deterministic; but `add_ma` returns its result by
extending the caller's object in place — return value and argument
post-state coincide — while the OHLCV rows themselves are preserved (only
MA columns are installed). -/
theorem c9_frame_amended :
    (∀ df : DataFrame, ∀ p : String, (resample_k_data_call df p).2 = df) ∧
    (∀ df : DataFrame, (add_ma_call df).1 = (add_ma_call df).2) ∧
    (∀ df : DataFrame, (add_ma_call df).2.bars = df.bars) :=
  ⟨fun _ _ => rfl, fun _ => rfl, fun _ => rfl⟩

/-! ## Viewer front end (`load_local_stock_data`, `update_chart`,
`display_hover`) -/

/-- The whitespace characters Python's `str.strip()` removes. -/
def isSpaceChar (c : Char) : Bool :=
  (c == ' ') || (c == '\t') || (c == '\n') || (c == '\r') ||
  (c == '\x0b') || (c == '\x0c')

/-- Python `str.strip()`: drop leading and trailing whitespace. -/
def strip (s : String) : String :=
  ⟨((s.data.dropWhile isSpaceChar).reverse.dropWhile isSpaceChar).reverse⟩

/-- Python `str.zfill(n)`: left-pad with zeros to width `n`, keeping a
leading sign in front of the padding. -/
def zfill (n : Nat) (s : String) : String :=
  if n ≤ s.data.length then s
  else
    match s.data with
    | c :: rest =>
      if c = '+' ∨ c = '-' then ⟨c :: (List.replicate (n - s.data.length) '0' ++ rest)⟩
      else ⟨List.replicate (n - s.data.length) '0' ++ s.data⟩
    | [] => ⟨List.replicate n '0'⟩

/-- Stable-enough insertion step for sorting bars by date. -/
def insertByDate (b : Bar) : List Bar → List Bar
  | [] => [b]
  | c :: cs => if b.date ≤ c.date then b :: c :: cs else c :: insertByDate b cs

/-- `df.sort_values("date")`: sort rows ascending by date. -/
def sortByDate (l : List Bar) : List Bar := l.foldr insertByDate []

/-- `load_local_stock_data`: scan the data directory (a listing of
`(filename, parsed rows)`), keep files named `Ashare_{symbol}_*.csv`, read
the first match, coerce dates and sort ascending; `none` embeds the
`FileNotFoundError` raised when no file matches. -/
def load_local_stock_data (dir : List (String × List Bar)) (symbol : String) :
    Option (DataFrame × String) :=
  match dir.filter (fun f =>
      ("Ashare_" ++ symbol ++ "_").data.isPrefixOf f.1.data &&
      ".csv".data.isSuffixOf f.1.data) with
  | [] => none
  | f :: _ => some (⟨sortByDate f.2, []⟩, f.1)

/-- The result of the chart callback: an empty figure with a message (no
symbol entered, or any load/render failure caught by the boundary), or the
figure plotting the rows of the computed frame in ordinal order along the
category axis, plus the file-info line's filename. -/
inductive ChartResult where
  | blank (msg : String)
  | chart (df : DataFrame) (filename : String)
deriving DecidableEq

/-- The result of the hover callback: the "awaiting input" placeholder,
the per-failure placeholders, or the structured readout of one row — its
date, OHLCV and every window's MA value or missing marker. -/
inductive HoverResult where
  | awaiting
  | noSymbol
  | loadFailed
  | cannotLocate
  | readout (row : Bar) (mas : List (Nat × Option ℚ))
deriving DecidableEq

/-- `update_chart`: reject an empty symbol, normalize it
(`strip().zfill(6)`), load the stored series, resample to the selected
period, add the MA columns and plot; any exception becomes a blank figure
with a message. -/
def update_chart (dir : List (String × List Bar)) (symbol period : String) :
    ChartResult :=
  if symbol = "" then .blank "请输入股票代码。"
  else
    match load_local_stock_data dir (zfill 6 (strip symbol)) with
    | none => .blank "加载失败"
    | some (df0, fn) => .chart (add_ma (resample_k_data df0 period)) fn

/-- Resolve the hover points against the computed frame:
`point_index = next((p["pointIndex"] for p in points if present), None)`,
reject a missing or out-of-range index with the "cannot locate" placeholder,
otherwise read row `point_index` (date, OHLCV and the `MA{w}` cells). -/
def resolveHover (df : DataFrame) (points : List (Option Int)) : HoverResult :=
  match (points.filterMap id).head? with
  | none => .cannotLocate
  | some idx =>
    if idx < 0 ∨ (df.bars.length : Int) ≤ idx then .cannotLocate
    else
      match df.bars.get? idx.toNat with
      | none => .cannotLocate
      | some b => .readout b (MA_WINDOWS.map (fun w => (w, df.rowMA idx.toNat w)))

/-- `display_hover`: `hoverData` is `none` when no pointer event has fired
and `some none` when the payload lacks a `points` key (both yield the
awaiting placeholder); otherwise the points list holds optional
`pointIndex` entries.  The callback recomputes the full
load→resample→add_ma pipeline for the current symbol and period and
resolves the pointer position against it; every failure returns a
placeholder instead of raising. -/
def display_hover (dir : List (String × List Bar))
    (hoverData : Option (Option (List (Option Int)))) (symbol period : String) :
    HoverResult :=
  match hoverData with
  | none => .awaiting
  | some none => .awaiting
  | some (some points) =>
    if symbol = "" then .noSymbol
    else
      match load_local_stock_data dir (zfill 6 (strip symbol)) with
      | none => .loadFailed
      | some (df0, _) => resolveHover (add_ma (resample_k_data df0 period)) points

/-- Unfolding `display_hover` once a pointer payload is present, the symbol
non-empty, and the load result known. -/
theorem display_hover_loaded (dir : List (String × List Bar))
    (points : List (Option Int)) (symbol period : String) (hs : ¬symbol = "")
    (df0 : DataFrame) (fn : String)
    (hload : load_local_stock_data dir (zfill 6 (strip symbol)) = some (df0, fn)) :
    display_hover dir (some (some points)) symbol period =
      resolveHover (add_ma (resample_k_data df0 period)) points := by
  simp only [display_hover]
  rw [if_neg hs, hload]

/-- Resolving an in-range ordinal index reads exactly that row. -/
theorem resolveHover_in_range (df : DataFrame) (k : Nat) (hk : k < df.bars.length) :
    resolveHover df [some (k : Int)] =
      .readout (df.bars.get ⟨k, hk⟩)
        (MA_WINDOWS.map (fun w => (w, df.rowMA k w))) := by
  unfold resolveHover
  split
  · next heq => exact absurd heq (by simp)
  · next idx heq =>
    have hsome : (([some (k : Int)].filterMap id).head?) = some (k : Int) := rfl
    rw [hsome] at heq
    have hidx : idx = (k : Int) := (Option.some_inj.1 heq).symm
    subst hidx
    have hcond : ¬((k : Int) < 0 ∨ (df.bars.length : Int) ≤ (k : Int)) := by omega
    rw [if_neg hcond]
    have hget : df.bars.get? ((k : Int)).toNat = some (df.bars.get ⟨k, hk⟩) := by
      simp [List.get?_eq_get, hk]
    rw [hget]
    rfl

/-! ## C3 — hover/render consistency -/

/-- C3 (amended): for a fixed `(symbol, period)`, the hover readout
recomputes the same load→resample→add_ma pipeline as the chart render and
returns exactly the row plotted at ordinal position `k`: same date, same
OHLCV, and every window's MA value or missing marker. -/
theorem c3_hover_render_consistent :
    ∀ (dir : List (String × List Bar)) (symbol period : String) (df : DataFrame)
      (fn : String) (k : Nat),
      update_chart dir symbol period = .chart df fn →
      ∀ hk : k < df.bars.length,
      display_hover dir (some (some [some (k : Int)])) symbol period =
        .readout (df.bars.get ⟨k, hk⟩)
          (MA_WINDOWS.map (fun w => (w, df.rowMA k w))) := by
  intro dir symbol period df fn k hch hk
  by_cases hs : symbol = ""
  · simp only [update_chart, if_pos hs] at hch
    cases hch
  · simp only [update_chart, if_neg hs] at hch
    cases hload : load_local_stock_data dir (zfill 6 (strip symbol)) with
    | none => rw [hload] at hch; cases hch
    | some p =>
      obtain ⟨df0, fn0⟩ := p
      rw [hload] at hch
      have hch' : ChartResult.chart (add_ma (resample_k_data df0 period)) fn0 =
          ChartResult.chart df fn := hch
      injection hch' with h1 h2
      subst h1
      rw [display_hover_loaded dir [some (k : Int)] symbol period hs df0 fn0 hload]
      exact resolveHover_in_range _ k hk

/-- The single-bar store used for the C3 counterexample: one trading day
that falls on a Friday, so the daily row and the weekly aggregate carry the
same period-end date. -/
def c3dir : List (String × List Bar) :=
  [("Ashare_000007_1_20240105.csv", [⟨toSerial 2024 1 5, 1, 2, 1, 2, 3⟩])]

/-- The date of a readout, `none` on any placeholder. -/
def hoverDate : HoverResult → Option Nat
  | .readout b _ => some b.date
  | _ => none

/-- C3 counterexample: the claim also asserts that switching `period` while
keeping the pointer index *changes* the returned date; on a store whose
series is a single Friday bar, the daily readout at index 0 and the weekly
readout at index 0 return the same date (2024-01-05 is its own week-end
Friday), so the date does not change. -/
theorem c3_period_switch_cex :
    hoverDate (display_hover c3dir (some (some [some 0])) "000007" "daily") =
        hoverDate (display_hover c3dir (some (some [some 0])) "000007" "weekly") ∧
    hoverDate (display_hover c3dir (some (some [some 0])) "000007" "daily") =
        some (toSerial 2024 1 5) :=
  ⟨by with_unfolding_all rfl, by with_unfolding_all rfl⟩

/-- The ten-day store used for concrete viewer instances. -/
def exDir : List (String × List Bar) :=
  [("Ashare_000007_10_20240108.csv", ex10)]

/-- C3 witness: the consistency theorem applied to the ten-day store at
ordinal position 0 of the daily view. -/
theorem c3_hover_render_consistent_witness :
    display_hover exDir (some (some [some (0 : Int)])) "000007" "daily" =
      .readout ((add_ma (resample_k_data ⟨sortByDate ex10, []⟩ "daily")).bars.get
          ⟨0, by with_unfolding_all decide⟩)
        (MA_WINDOWS.map (fun w =>
          (w, (add_ma (resample_k_data ⟨sortByDate ex10, []⟩ "daily")).rowMA 0 w))) :=
  c3_hover_render_consistent exDir "000007" "daily"
    (add_ma (resample_k_data ⟨sortByDate ex10, []⟩ "daily"))
    "Ashare_000007_10_20240108.csv" 0 (by with_unfolding_all rfl)
    (by with_unfolding_all decide)

/-! ## C8 — hover placeholders -/

/-- C8: the hover service returns the "awaiting input" placeholder when no
pointer event has occurred (falsy payload, or payload without points), the
load-failure placeholder when the artifact is missing, and the "cannot
locate" placeholder when no point carries an index or the index is out of
range of the currently computed series; it never raises (it is total and
each failure path is a placeholder constructor). -/
theorem c8_hover_placeholders :
    (∀ (dir : List (String × List Bar)) (symbol period : String),
      display_hover dir none symbol period = .awaiting) ∧
    (∀ (dir : List (String × List Bar)) (symbol period : String),
      display_hover dir (some none) symbol period = .awaiting) ∧
    (∀ (dir : List (String × List Bar)) (symbol period : String)
       (points : List (Option Int)), ¬symbol = "" →
      load_local_stock_data dir (zfill 6 (strip symbol)) = none →
      display_hover dir (some (some points)) symbol period = .loadFailed) ∧
    (∀ (dir : List (String × List Bar)) (symbol period : String)
       (points : List (Option Int)) (df0 : DataFrame) (fn : String), ¬symbol = "" →
      load_local_stock_data dir (zfill 6 (strip symbol)) = some (df0, fn) →
      ((points.filterMap id).head? = none →
        display_hover dir (some (some points)) symbol period = .cannotLocate) ∧
      (∀ idx, (points.filterMap id).head? = some idx →
        (idx < 0 ∨ ((add_ma (resample_k_data df0 period)).bars.length : Int) ≤ idx) →
        display_hover dir (some (some points)) symbol period = .cannotLocate)) := by
  refine ⟨fun dir s p => rfl, fun dir s p => rfl, ?_, ?_⟩
  · intro dir symbol period points hs hload
    simp only [display_hover, if_neg hs]
    rw [hload]
  · intro dir symbol period points df0 fn hs hload
    constructor
    · intro hhead
      rw [display_hover_loaded dir points symbol period hs df0 fn hload]
      unfold resolveHover
      rw [hhead]
    · intro idx hhead hrange
      rw [display_hover_loaded dir points symbol period hs df0 fn hload]
      unfold resolveHover
      rw [hhead]
      exact if_pos hrange

/-- C8 witness: with the ten-day store, a payload whose points carry no
index resolves to the "cannot locate" placeholder. -/
theorem c8_hover_placeholders_witness :
    display_hover exDir (some (some [none])) "000007" "daily" =
      HoverResult.cannotLocate :=
  (c8_hover_placeholders.2.2.2 exDir "000007" "daily" [none]
      (⟨sortByDate ex10, []⟩ : DataFrame) "Ashare_000007_10_20240108.csv"
      (by decide) (by with_unfolding_all rfl)).1 rfl

/-! ## C10 — symbol normalization -/

/-- C10: both the chart render and the hover readout normalize the entered
symbol by stripping surrounding whitespace and zero-padding to six
characters before the store lookup, so any two non-empty inputs with the
same normal form resolve identically; in particular `"7"`, `" 7 "` and
`"000007"` all normalize to `"000007"`. -/
theorem c10_symbol_normalization :
    (∀ (dir : List (String × List Bar)) (period : String) (s₁ s₂ : String)
       (hd : Option (Option (List (Option Int)))),
      ¬s₁ = "" → ¬s₂ = "" → zfill 6 (strip s₁) = zfill 6 (strip s₂) →
      update_chart dir s₁ period = update_chart dir s₂ period ∧
      display_hover dir hd s₁ period = display_hover dir hd s₂ period) ∧
    zfill 6 (strip "7") = "000007" ∧
    zfill 6 (strip " 7 ") = "000007" ∧
    zfill 6 (strip "000007") = "000007" := by
  refine ⟨?_, by with_unfolding_all rfl, by with_unfolding_all rfl,
    by with_unfolding_all rfl⟩
  intro dir period s₁ s₂ hd h1 h2 hkey
  constructor
  · simp only [update_chart, if_neg h1, if_neg h2, hkey]
  · match hd with
    | none => rfl
    | some none => rfl
    | some (some points) => simp only [display_hover, if_neg h1, if_neg h2, hkey]

/-- C10 witness: `"7"` and `" 7 "` render identically over any fixed store
(here the ten-day store). -/
theorem c10_symbol_normalization_witness :
    update_chart exDir "7" "daily" = update_chart exDir " 7 " "daily" :=
  (c10_symbol_normalization.1 exDir "daily" "7" " 7 " none (by decide) (by decide)
    (by with_unfolding_all rfl)).1

/-! ## Ingestion orchestrator (`get_kline_data`, batch download loop) -/

/-- One row as the provider returns it: the akshare Chinese column names
(`«日期»` is a `(year, month, day)` triple before date coercion); `«成交额»`
stands for the extra provider columns that the canonical selection drops. -/
structure RawBar where
  «日期» : Nat × Nat × Nat
  «开盘» : ℚ
  «收盘» : ℚ
  «最高» : ℚ
  «最低» : ℚ
  «成交量» : ℚ
  «成交额» : ℚ
deriving DecidableEq, Repr, Inhabited

/-- The source's `rename` + column selection + `to_datetime` coercion: map
each provider row onto the canonical `Bar` schema. -/
def rawToBar (r : RawBar) : Bar :=
  { date := toSerial r.«日期».1 r.«日期».2.1 r.«日期».2.2
    «open» := r.«开盘»
    high := r.«最高»
    low := r.«最低»
    close := r.«收盘»
    volume := r.«成交量» }

/-- `get_kline_data`: one fetch attempt; on success rename to the canonical
schema, coerce dates and sort ascending; any exception (the provider
failing) yields `None`. -/
def get_kline_data (fetch : String → Option (List RawBar)) (symbol : String) :
    Option (List Bar) :=
  match fetch symbol with
  | none => none
  | some raw => some (sortByDate (raw.map rawToBar))

/-- Zero-padded decimal rendering, as `strftime` does. -/
def padNum (n : Nat) (k : Nat) : String := zfill n (Nat.repr k)

/-- `strftime("%Y%m%d")` of a serial date. -/
def fmtYmd (s : Nat) : String :=
  let c := fromSerial s
  padNum 4 c.1 ++ padNum 2 c.2.1 ++ padNum 2 c.2.2

/-- The artifact-name stem `Ashare_{code}_` used both to build filenames and
to detect existing artifacts. -/
def artifactStem (code : String) : String := "Ashare_" ++ code ++ "_"

/-- `f"Ashare_{code}_{row_count}_{start_date}.csv"` — the `ManifestKey`
`(symbol, rowCount, startDate)` rendered as the stored filename. -/
def mkFilename (code : String) (rowCount : Nat) (startDate : Nat) : String :=
  artifactStem code ++ Nat.repr rowCount ++ "_" ++ fmtYmd startDate ++ ".csv"

/-- `f.startswith(f"Ashare_{code}_")`: does a stored filename match the
symbol? -/
def hasArtifactFile (code : String) (fname : String) : Bool :=
  (artifactStem code).data.isPrefixOf fname.data

/-- Per-symbol classification of the batch loop. -/
inductive Outcome where
  | succeeded
  | failed
  | skipped
deriving DecidableEq, Repr

/-- One iteration of the batch loop: skip when any stored artifact matches
the symbol (no fetch); otherwise fetch once; a `None` or empty result is a
failure; otherwise persist under the manifest filename and succeed. -/
def runStep (fetch : String → Option (List RawBar)) (store : List String)
    (code : String) : Outcome × List String :=
  if store.any (hasArtifactFile code) then (.skipped, store)
  else
    match get_kline_data fetch code with
    | none => (.failed, store)
    | some df =>
      if df.isEmpty then (.failed, store)
      else (.succeeded, store ++ [mkFilename code df.length (df.headD default).date])

/-- The whole batch loop: every symbol in sequence, threading the store;
returns the per-symbol outcomes (the printed log) and the final store. -/
def runBatch (fetch : String → Option (List RawBar)) :
    List String → List String → List Outcome × List String
  | [], store => ([], store)
  | c :: cs, store =>
    ((runStep fetch store c).1 :: (runBatch fetch cs (runStep fetch store c).2).1,
     (runBatch fetch cs (runStep fetch store c).2).2)

/-- The final `{succeeded, failed, skipped}` counters. -/
def tally (outs : List Outcome) : Nat × Nat × Nat :=
  (outs.count .succeeded, outs.count .failed, outs.count .skipped)

/-! ### Sorting and filename lemmas -/

theorem insertByDate_length (b : Bar) (l : List Bar) :
    (insertByDate b l).length = l.length + 1 := by
  induction l with
  | nil => rfl
  | cons c cs ih =>
    unfold insertByDate
    by_cases h : b.date ≤ c.date
    · rw [if_pos h]; rfl
    · rw [if_neg h]
      simp [ih]

theorem mem_insertByDate {x b : Bar} {l : List Bar} :
    x ∈ insertByDate b l ↔ x = b ∨ x ∈ l := by
  induction l with
  | nil => simp [insertByDate]
  | cons c cs ih =>
    unfold insertByDate
    by_cases h : b.date ≤ c.date
    · rw [if_pos h]
      simp [or_comm, or_left_comm]
    · rw [if_neg h]
      simp [ih, or_left_comm]

theorem pairwise_insertByDate (b : Bar) {l : List Bar}
    (h : l.Pairwise (fun x y => x.date ≤ y.date)) :
    (insertByDate b l).Pairwise (fun x y => x.date ≤ y.date) := by
  induction l with
  | nil => simp [insertByDate]
  | cons c cs ih =>
    rcases List.pairwise_cons.1 h with ⟨hc, hcs⟩
    unfold insertByDate
    by_cases hbc : b.date ≤ c.date
    · rw [if_pos hbc]
      refine List.pairwise_cons.2 ⟨?_, h⟩
      intro x hx
      rcases List.mem_cons.1 hx with rfl | hx
      · exact hbc
      · exact le_trans hbc (hc x hx)
    · rw [if_neg hbc]
      refine List.pairwise_cons.2 ⟨?_, ih hcs⟩
      intro x hx
      rcases mem_insertByDate.1 hx with rfl | hx
      · exact le_of_not_le hbc
      · exact hc x hx

theorem sortByDate_pairwise (l : List Bar) :
    (sortByDate l).Pairwise (fun x y => x.date ≤ y.date) := by
  induction l with
  | nil => simp [sortByDate]
  | cons b bs ih => exact pairwise_insertByDate b ih

theorem sortByDate_length (l : List Bar) : (sortByDate l).length = l.length := by
  induction l with
  | nil => rfl
  | cons b bs ih =>
    show (insertByDate b (sortByDate bs)).length = bs.length + 1
    rw [insertByDate_length, ih]

theorem data_append (s t : String) : (s ++ t).data = s.data ++ t.data := by
  cases s
  cases t
  rfl

theorem isPrefixOf_append_self (l rest : List Char) :
    l.isPrefixOf (l ++ rest) = true := by
  induction l with
  | nil => simp [List.isPrefixOf]
  | cons a as ih => simp [List.isPrefixOf, ih]

/-- Every filename the loop persists matches its own symbol's artifact
check on a later run. -/
theorem hasArtifactFile_mkFilename (code : String) (rc sd : Nat) :
    hasArtifactFile code (mkFilename code rc sd) = true := by
  unfold hasArtifactFile mkFilename
  rw [data_append, data_append, data_append, data_append]
  rw [List.append_assoc, List.append_assoc, List.append_assoc]
  exact isPrefixOf_append_self _ _

/-- Case analysis of one loop iteration: skip with the store untouched,
fail with the store untouched, or succeed appending one matching artifact. -/
theorem runStep_cases (fetch : String → Option (List RawBar)) (store : List String)
    (code : String) :
    (store.any (hasArtifactFile code) = true ∧
      runStep fetch store code = (.skipped, store)) ∨
    (store.any (hasArtifactFile code) = false ∧
      runStep fetch store code = (.failed, store)) ∨
    (store.any (hasArtifactFile code) = false ∧
      ∃ f, hasArtifactFile code f = true ∧
        runStep fetch store code = (.succeeded, store ++ [f])) := by
  by_cases hart : store.any (hasArtifactFile code) = true
  · exact Or.inl ⟨hart, by simp [runStep, hart]⟩
  · rw [Bool.not_eq_true] at hart
    cases hk : get_kline_data fetch code with
    | none => exact Or.inr (Or.inl ⟨hart, by simp [runStep, hart, hk]⟩)
    | some df =>
      cases df with
      | nil => exact Or.inr (Or.inl ⟨hart, by simp [runStep, hart, hk]⟩)
      | cons b bs =>
        refine Or.inr (Or.inr ⟨hart,
          mkFilename code (b :: bs).length ((b :: bs).headD default).date,
          hasArtifactFile_mkFilename code _ _, ?_⟩)
        simp [runStep, hart, hk]

/-- The store only ever grows: a run's final store extends its initial one. -/
theorem runBatch_extends (fetch : String → Option (List RawBar)) :
    ∀ (codes store : List String), ∃ ext, (runBatch fetch codes store).2 = store ++ ext := by
  intro codes
  induction codes with
  | nil => exact fun store => ⟨[], by simp [runBatch]⟩
  | cons c cs ih =>
    intro store
    rcases runStep_cases fetch store c with ⟨_, hs⟩ | ⟨_, hs⟩ | ⟨_, f, _, hs⟩
    · obtain ⟨ext, he⟩ := ih store
      exact ⟨ext, by simp only [runBatch, hs, he]⟩
    · obtain ⟨ext, he⟩ := ih store
      exact ⟨ext, by simp only [runBatch, hs, he]⟩
    · obtain ⟨ext, he⟩ := ih (store ++ [f])
      exact ⟨[f] ++ ext, by simp only [runBatch, hs, he, List.append_assoc]⟩

/-- Artifact checks stay positive when the store grows. -/
theorem any_append_left {p : String → Bool} {l₁ l₂ : List String}
    (h : l₁.any p = true) : (l₁ ++ l₂).any p = true := by
  simp [List.any_append, h]

/-- Counting helper for C4: when every symbol either has an artifact or
fails its fetch, the run leaves the store unchanged, classifies every
symbol, and the counters come out as skips vs failures. -/
theorem runBatch_counts (fetch : String → Option (List RawBar)) (store : List String) :
    ∀ codes : List String,
      (∀ c ∈ codes, store.any (hasArtifactFile c) = true ∨
        get_kline_data fetch c = none ∨ get_kline_data fetch c = some []) →
      (runBatch fetch codes store).2 = store ∧
      (runBatch fetch codes store).1.length = codes.length ∧
      (runBatch fetch codes store).1.count Outcome.succeeded = 0 ∧
      (runBatch fetch codes store).1.count Outcome.skipped =
        codes.countP (fun c => store.any (hasArtifactFile c)) ∧
      (runBatch fetch codes store).1.count Outcome.failed =
        codes.length - codes.countP (fun c => store.any (hasArtifactFile c)) := by
  intro codes
  induction codes with
  | nil => exact fun _ => ⟨rfl, rfl, rfl, rfl, rfl⟩
  | cons c cs ih =>
    intro h
    obtain ⟨ih1, ih2, ih3, ih4, ih5⟩ := ih (fun x hx => h x (List.mem_cons_of_mem c hx))
    have hcle : cs.countP (fun x => store.any (hasArtifactFile x)) ≤ cs.length :=
      List.countP_le_length _
    by_cases hart : store.any (hasArtifactFile c) = true
    · have hstep : runStep fetch store c = (Outcome.skipped, store) := by
        simp [runStep, hart]
      simp only [runBatch, hstep]
      refine ⟨ih1, by simp [ih2], ?_, ?_, ?_⟩
      · rw [List.count_cons_of_ne (by decide) _]
        exact ih3
      · rw [List.count_cons_self, List.countP_cons, ih4, if_pos hart]
      · rw [List.count_cons_of_ne (by decide) _, List.countP_cons, if_pos hart, ih5]
        simp only [List.length_cons]
        omega
    · have hart' : store.any (hasArtifactFile c) = false := by
        rwa [Bool.not_eq_true] at hart
      have hstep : runStep fetch store c = (Outcome.failed, store) := by
        rcases h c (List.mem_cons_self c cs) with ha | hf | hf
        · exact absurd ha hart
        · simp [runStep, hart', hf]
        · simp [runStep, hart', hf]
      simp only [runBatch, hstep]
      refine ⟨ih1, by simp [ih2], ?_, ?_, ?_⟩
      · rw [List.count_cons_of_ne (by decide) _]
        exact ih3
      · rw [List.count_cons_of_ne (by decide) _, List.countP_cons, if_neg (by simp [hart']), ih4]
        omega
      · rw [List.count_cons_self, List.countP_cons, if_neg (by simp [hart']), ih5]
        simp only [List.length_cons]
        omega

/-- C4: over any symbol list in which every symbol either already has a
stored artifact or fails its single fetch attempt (a `None` or empty
result), the loop terminates having classified every symbol, the store is
unchanged, and the final tally is `{succeeded: 0, failed: N−M, skipped: M}`
where `N` is the number of symbols and `M` the number with a pre-existing
artifact. -/
theorem c4_failure_accounting :
    ∀ (fetch : String → Option (List RawBar)) (codes store : List String),
      (∀ c ∈ codes, store.any (hasArtifactFile c) = true ∨
        get_kline_data fetch c = none ∨ get_kline_data fetch c = some []) →
      tally (runBatch fetch codes store).1 =
        (0, codes.length - codes.countP (fun c => store.any (hasArtifactFile c)),
          codes.countP (fun c => store.any (hasArtifactFile c))) ∧
      (runBatch fetch codes store).2 = store ∧
      (runBatch fetch codes store).1.length = codes.length := by
  intro fetch codes store h
  obtain ⟨h1, h2, h3, h4, h5⟩ := runBatch_counts fetch store codes h
  exact ⟨by rw [tally, h3, h4, h5], h1, h2⟩

/-- C4 witness: two symbols, one pre-existing artifact, the other failing
its fetch — the tally is `{succeeded: 0, failed: 1, skipped: 1}`. -/
theorem c4_failure_accounting_witness :
    tally (runBatch (fun _ => none) ["000001", "000002"]
        ["Ashare_000001_5_20240101.csv"]).1 = (0, 1, 1) := by
  have h := c4_failure_accounting (fun _ => none) ["000001", "000002"]
    ["Ashare_000001_5_20240101.csv"] ?hyp
  · exact h.1.trans (by decide)
  case hyp =>
    intro c hc
    rcases List.mem_cons.1 hc with rfl | hc2
    · exact Or.inl (by decide)
    · rcases List.mem_cons.1 hc2 with rfl | h3
      · exact Or.inr (Or.inl rfl)
      · cases h3

/-! ## C5 — skip-awareness and idempotence across re-runs -/

/-- C5: a symbol with any matching stored artifact is classified Skipped
with no fetch issued (the step's result is fixed independently of the
provider), and re-running the whole batch over the final store of a
previous identical run yields zero new successes, changes nothing, and
classifies every symbol bearing an artifact as Skipped. -/
theorem c5_idempotent_skip :
    (∀ (fetch fetch' : String → Option (List RawBar)) (store : List String)
       (code : String),
      store.any (hasArtifactFile code) = true →
      runStep fetch store code = (.skipped, store) ∧
      runStep fetch store code = runStep fetch' store code) ∧
    (∀ (fetch : String → Option (List RawBar)) (codes store : List String),
      (runBatch fetch codes ((runBatch fetch codes store).2)).2 =
        (runBatch fetch codes store).2 ∧
      (runBatch fetch codes ((runBatch fetch codes store).2)).1.count
        Outcome.succeeded = 0 ∧
      List.Forall₂
        (fun c o => (runBatch fetch codes store).2.any (hasArtifactFile c) = true →
          o = Outcome.skipped)
        codes (runBatch fetch codes ((runBatch fetch codes store).2)).1) := by
  constructor
  · intro fetch fetch' store code hart
    exact ⟨by simp [runStep, hart], by simp [runStep, hart]⟩
  · intro fetch codes
    induction codes with
    | nil => exact fun store => ⟨rfl, rfl, List.Forall₂.nil⟩
    | cons c cs ih =>
      intro store
      rcases runStep_cases fetch store c with ⟨hart, hs⟩ | ⟨hart, hs⟩ | ⟨hart, f, hf, hs⟩
      · obtain ⟨ext, hext⟩ := runBatch_extends fetch cs store
        have hFany : (runBatch fetch cs store).2.any (hasArtifactFile c) = true := by
          rw [hext]
          exact any_append_left hart
        have hstep2 : runStep fetch (runBatch fetch cs store).2 c =
            (Outcome.skipped, (runBatch fetch cs store).2) := by
          simp [runStep, hFany]
        obtain ⟨ihA, ihB, ihC⟩ := ih store
        refine ⟨?_, ?_, ?_⟩
        · simp only [runBatch, hs, hstep2]
          exact ihA
        · simp only [runBatch, hs, hstep2]
          rw [List.count_cons_of_ne (by decide) _]
          exact ihB
        · simp only [runBatch, hs, hstep2]
          exact List.Forall₂.cons (fun _ => rfl) ihC
      · obtain ⟨ihA, ihB, ihC⟩ := ih store
        have hkfail : get_kline_data fetch c = none ∨ get_kline_data fetch c = some [] := by
          cases hk : get_kline_data fetch c with
          | none => exact Or.inl rfl
          | some df =>
            cases df with
            | nil => exact Or.inr rfl
            | cons b bs =>
              exfalso
              simp [runStep, hart, hk] at hs
        by_cases hF : (runBatch fetch cs store).2.any (hasArtifactFile c) = true
        · have hstep2 : runStep fetch (runBatch fetch cs store).2 c =
              (Outcome.skipped, (runBatch fetch cs store).2) := by
            simp [runStep, hF]
          refine ⟨?_, ?_, ?_⟩
          · simp only [runBatch, hs, hstep2]
            exact ihA
          · simp only [runBatch, hs, hstep2]
            rw [List.count_cons_of_ne (by decide) _]
            exact ihB
          · simp only [runBatch, hs, hstep2]
            exact List.Forall₂.cons (fun _ => rfl) ihC
        · have hF' : (runBatch fetch cs store).2.any (hasArtifactFile c) = false := by
            rwa [Bool.not_eq_true] at hF
          have hstep2 : runStep fetch (runBatch fetch cs store).2 c =
              (Outcome.failed, (runBatch fetch cs store).2) := by
            rcases hkfail with hk | hk
            · simp [runStep, hF', hk]
            · simp [runStep, hF', hk]
          refine ⟨?_, ?_, ?_⟩
          · simp only [runBatch, hs, hstep2]
            exact ihA
          · simp only [runBatch, hs, hstep2]
            rw [List.count_cons_of_ne (by decide) _]
            exact ihB
          · simp only [runBatch, hs, hstep2]
            exact List.Forall₂.cons (fun hcon => absurd hcon hF) ihC
      · obtain ⟨ext, hext⟩ := runBatch_extends fetch cs (store ++ [f])
        have hsf : (store ++ [f]).any (hasArtifactFile c) = true := by
          simp [List.any_append, hf]
        have hFany : (runBatch fetch cs (store ++ [f])).2.any (hasArtifactFile c) = true := by
          rw [hext]
          exact any_append_left hsf
        have hstep2 : runStep fetch (runBatch fetch cs (store ++ [f])).2 c =
            (Outcome.skipped, (runBatch fetch cs (store ++ [f])).2) := by
          simp [runStep, hFany]
        obtain ⟨ihA, ihB, ihC⟩ := ih (store ++ [f])
        refine ⟨?_, ?_, ?_⟩
        · simp only [runBatch, hs, hstep2]
          exact ihA
        · simp only [runBatch, hs, hstep2]
          rw [List.count_cons_of_ne (by decide) _]
          exact ihB
        · simp only [runBatch, hs, hstep2]
          exact List.Forall₂.cons (fun _ => rfl) ihC

/-- Provider stub for the concrete orchestrator scenarios: `000002` returns
one raw row, every other symbol fails. -/
def exRaw : RawBar := ⟨(2024, 1, 31), 1, 2, 3, 1, 100, 200⟩

def exFetch : String → Option (List RawBar) :=
  fun c => if c = "000002" then some [exRaw] else none

/-- C5 witness: a concrete artifact is skipped regardless of the provider,
and a concrete second run over the first run's store has zero successes. -/
theorem c5_idempotent_skip_witness :
    runStep (fun _ => none) ["Ashare_000001_5_20240101.csv"] "000001" =
      (Outcome.skipped, ["Ashare_000001_5_20240101.csv"]) ∧
    (runBatch exFetch ["000001", "000002", "000003"]
        ((runBatch exFetch ["000001", "000002", "000003"]
          ["Ashare_000001_5_20240101.csv"]).2)).1.count Outcome.succeeded = 0 :=
  ⟨(c5_idempotent_skip.1 (fun _ => none) (fun _ => none)
      ["Ashare_000001_5_20240101.csv"] "000001" (by decide)).1,
   (c5_idempotent_skip.2 exFetch ["000001", "000002", "000003"]
      ["Ashare_000001_5_20240101.csv"]).2.1⟩

/-! ## C7 — normalize, sort, persist, classify Succeeded -/

/-- C7: when the single fetch attempt returns a non-empty raw table (and no
artifact pre-exists, so a fetch is issued at all), `get_kline_data` yields
the rows renamed onto the canonical schema with dates coerced and sorted
ascending, and the loop persists them under the
`Ashare_{symbol}_{rowCount}_{startDate}.csv` manifest filename and
classifies the symbol Succeeded. -/
theorem c7_fetch_normalize_persist :
    ∀ (fetch : String → Option (List RawBar)) (code : String) (store : List String)
      (raws : List RawBar),
      fetch code = some raws → raws ≠ [] →
      store.any (hasArtifactFile code) = false →
      get_kline_data fetch code = some (sortByDate (raws.map rawToBar)) ∧
      (sortByDate (raws.map rawToBar)).Pairwise (fun a b => a.date ≤ b.date) ∧
      (sortByDate (raws.map rawToBar)).length = raws.length ∧
      runStep fetch store code =
        (.succeeded,
          store ++ [mkFilename code (sortByDate (raws.map rawToBar)).length
            ((sortByDate (raws.map rawToBar)).headD default).date]) := by
  intro fetch code store raws hfetch hne hart
  have hget : get_kline_data fetch code = some (sortByDate (raws.map rawToBar)) := by
    unfold get_kline_data
    rw [hfetch]
  have hlen : (sortByDate (raws.map rawToBar)).length = raws.length := by
    rw [sortByDate_length, List.length_map]
  have hnonempty : (sortByDate (raws.map rawToBar)).isEmpty = false := by
    cases hsd : sortByDate (raws.map rawToBar) with
    | nil =>
      have h0 : raws.length = 0 := by rw [← hlen, hsd]; rfl
      exact absurd (List.length_eq_zero.1 h0) hne
    | cons x xs => rfl
  refine ⟨hget, sortByDate_pairwise _, hlen, ?_⟩
  simp [runStep, hart, hget, hnonempty]

/-- C7 witness: the fetch of `000002` returns one raw row for 2024-01-31;
the loop persists it as `Ashare_000002_1_20240131.csv` and succeeds. -/
theorem c7_fetch_normalize_persist_witness :
    runStep exFetch [] "000002" =
      (Outcome.succeeded, [mkFilename "000002" 1 (toSerial 2024 1 31)]) := by
  have h := c7_fetch_normalize_persist exFetch "000002" [] [exRaw]
    (by with_unfolding_all rfl) (by simp) rfl
  refine h.2.2.2.trans ?_
  with_unfolding_all rfl

end AShare